import Mathlib

/-!
Verification development for `extract_yara_batch.py`, a bulk malware-sample
triage pipeline: it extracts each archive sample to a scratch directory,
sanitizes unsafe extracted paths, scans the original file and every extracted
member with compiled YARA rules, and flattens the matches into result records.

Strings are embedded as `List Char`; paths are split on the separator
character `psep`.  The random generator used by `clean_string` for filename
substitution is embedded as an oracle `choice : Nat → Char` giving the drawn
character for each position; `random.choice(string.ascii_letters +
string.digits)` always returns an ASCII letter or digit, which appears as a
hypothesis on the oracle where needed.
-/

namespace ExtractYaraBatch

/-- The path separator `os.path.sep` (the development models the POSIX value). -/
def psep : Char := '/'

/-- `c` is an ASCII letter, i.e. a character of Python's `string.ascii_letters`. -/
def isAsciiLetter (c : Char) : Bool :=
  ('a' ≤ c && c ≤ 'z') || ('A' ≤ c && c ≤ 'Z')

/-- `c` is an ASCII digit, i.e. a character of Python's `string.digits`. -/
def isAsciiDigit (c : Char) : Bool :=
  '0' ≤ c && c ≤ '9'

/-- Membership in `valid_chars = "-_.() %s%s" % (string.ascii_letters, string.digits)`
from `clean_string`.  (The `os.name == 'nt'` branch calls
`valid_chars.replace('<>:"/\\|?*', '')`, which removes occurrences of that
nine-character substring; the substring never occurs in `valid_chars`, so the
set is the same on every platform.) -/
def isValidChar (c : Char) : Bool :=
  c = '-' || c = '_' || c = '.' || c = '(' || c = ')' || c = ' ' ||
  isAsciiLetter c || isAsciiDigit c

/-- The filename branch of `clean_string` (`is_filename=True`): each character
outside `valid_chars` is replaced by `random.choice(string.ascii_letters +
string.digits)`.  `k` indexes the oracle: the character at input position `i`
uses draw `k + i`. -/
def cleanFilenameAux (choice : Nat → Char) : Nat → List Char → List Char
  | _, [] => []
  | k, c :: cs =>
    (if isValidChar c then c else choice k) :: cleanFilenameAux choice (k + 1) cs

/-- Embedding of `clean_string(input_str, is_filename)`: for a filename every
disallowed character is replaced by an oracle draw; otherwise disallowed
characters are dropped. -/
def clean_string (choice : Nat → Char) (input_str : List Char)
    (is_filename : Bool) : List Char :=
  if is_filename then cleanFilenameAux choice 0 input_str
  else input_str.filter (fun c => isValidChar c)

/-- `full_path.split(os.path.sep)` on `List Char`: always returns a non-empty
list of separator-free segments. -/
def splitOnSep : List Char → List (List Char)
  | [] => [[]]
  | c :: cs =>
    let r := splitOnSep cs
    if c = psep then [] :: r else (c :: r.headD []) :: r.tail

/-- `os.path.sep.join(parts)` on `List Char`. -/
def joinSep : List (List Char) → List Char
  | [] => []
  | [x] => x
  | x :: y :: ys => x ++ psep :: joinSep (y :: ys)

/-- The pure path transformation of `clean_and_ensure_path(full_path)`:
split on the separator, drop empty directory segments (`if part`), clean the
remaining directory segments with `clean_string(part)`, clean the final
segment with `clean_string(part, is_filename=True)`, and rejoin.  The
`os.makedirs(..., exist_ok=True)` call is a side effect on the filesystem and
does not affect the returned path. -/
def clean_and_ensure_path (choice : Nat → Char) (full_path : List Char) :
    List Char :=
  let path_parts := splitOnSep full_path
  let cleaned_parts :=
    (path_parts.dropLast.filter (fun part => part ≠ [])).map
      (fun part => clean_string choice part false)
  let cleaned_filename := clean_string choice (path_parts.getLastD []) true
  joinSep (cleaned_parts ++ [cleaned_filename])

/-- The cleaned directory components of `clean_and_ensure_path`'s
transformation of `P`. -/
def cleanedDirParts (choice : Nat → Char) (P : List Char) : List (List Char) :=
  ((splitOnSep P).dropLast.filter (fun part => part ≠ [])).map
    (fun part => clean_string choice part false)

/-- The cleaned filename component of `clean_and_ensure_path`'s
transformation of `P`. -/
def cleanedFileName (choice : Nat → Char) (P : List Char) : List Char :=
  clean_string choice ((splitOnSep P).getLastD []) true

/-- Python's `string.printable`: digits, ASCII letters, punctuation and
whitespace, exactly as `is_valid_path` builds its allowed set. -/
def pyPrintableChars : List Char :=
  ("0123456789abcdefghijklmnopqrstuvwxyzABCDEFGHIJKLMNOPQRSTUVWXYZ" ++
   "!\"#$%&'()*+,-./:;<=>?@[\\]^_`\x7b|\x7d~ \t\n\r\x0b\x0c").toList

/-- Embedding of `is_valid_path(path)`: every character of the path is a
member of `set(string.printable)`. -/
def is_valid_path (path : List Char) : Bool :=
  path.all (fun c => pyPrintableChars.contains c)

/-- The ASCII fragment of the predicate `c.isprintable() and not c.isspace()`
used by `sanitize_name`: for ASCII characters this holds exactly for codes
33–126 (space is printable in Python but is white space; all other
white-space and control characters are non-printable).  The development only
applies `sanitize_name` to ASCII names, where this fragment is exact. -/
def isPrintableNotSpace (c : Char) : Bool :=
  33 ≤ c.toNat && c.toNat ≤ 126

/-- Embedding of `sanitize_name(name)`: every character that is not printable
or is white space is replaced by an underscore. -/
def sanitize_name (name : List Char) : List Char :=
  name.map (fun c => if isPrintableNotSpace c then c else '_')

/-- A filesystem path as its list of components. -/
abbrev FPath := List (List Char)

/-- `os.path.exists` against a state listing every existing path. -/
def pexists (st : List FPath) (p : FPath) : Bool := st.contains p

/-- The effect of `os.rename(src, dst)` on the set of existing paths: the
entry and everything below it move from `src` to `dst`. -/
def renameInState (st : List FPath) (src dst : FPath) : List FPath :=
  st.map (fun p => if src.isPrefixOf p then dst ++ p.drop src.length else p)

/-- One rename attempt of `sanitize_directory`: the entry `root ++ [name]` is
renamed to `dstDir ++ [sanitize_name name]` when the two paths differ and the
destination does not already exist.  Returns the new state and the rename
performed, if any. -/
def renameStep (root dstDir : FPath) (acc : List FPath × List (FPath × FPath))
    (name : List Char) : List FPath × List (FPath × FPath) :=
  let original_path := root ++ [name]
  let new_path := dstDir ++ [sanitize_name name]
  if original_path ≠ new_path && !(pexists acc.1 new_path) then
    (renameInState acc.1 original_path new_path, acc.2 ++ [(original_path, new_path)])
  else acc

/-- Processing of one `os.walk` triple by `sanitize_directory`: files are
renamed within `root` (`os.path.join(root, sanitized_name)`), directories are
renamed into `os.path.dirname(root)`
(`os.path.join(os.path.dirname(root), sanitized_name)`), exactly as in the
source. -/
def processTriple (acc : List FPath × List (FPath × FPath))
    (t : FPath × List (List Char) × List (List Char)) :
    List FPath × List (FPath × FPath) :=
  let acc1 := t.2.2.foldl (renameStep t.1 t.1) acc
  t.2.1.foldl (renameStep t.1 t.1.dropLast) acc1

/-- Embedding of `sanitize_directory(directory)`: fold over the
`(root, dirs, files)` triples that `os.walk(directory, topdown=False)`
yields (bottom-up: each directory's triple comes after those of its
subdirectories), attempting the renames in source order.  The walk listing
and the initial path state (every existing path, inside and outside the
tree) are inputs, since `os.walk` is an external OS capability; the result
is the final path state together with the list of renames performed, in
order. -/
def sanitize_directory
    (walk : List (FPath × List (List Char) × List (List Char)))
    (st : List FPath) : List FPath × List (FPath × FPath) :=
  walk.foldl processTriple (st, [])

/-- `basename.replace(".yar", "")` from `compile_yara_rules_from_directory`:
Python `str.replace` removes every non-overlapping occurrence of `".yar"`,
left to right. -/
def stripYar : List Char → List Char
  | [] => []
  | '.' :: 'y' :: 'a' :: 'r' :: rest => stripYar rest
  | c :: cs => c :: stripYar cs

/-- `name.endswith(".yar")`. -/
def endsWithYar (name : List Char) : Bool :=
  ('.' :: 'y' :: 'a' :: 'r' :: []).isSuffixOf name

/-- `os.path.join(root, name)` for a root that does not end in a separator. -/
def pathJoin (root name : List Char) : List Char :=
  if root = [] then name else root ++ psep :: name

/-- Insertion into a Python `dict` (association list with distinct keys, in
insertion order): an existing key keeps its position and takes the new
value, a new key is appended. -/
def pyDictInsert : List (List Char × List Char) → List Char → List Char →
    List (List Char × List Char)
  | [], k, v => [(k, v)]
  | kv :: rest, k, v =>
    if kv.1 = k then (k, v) :: rest else kv :: pyDictInsert rest k v

/-- The Python `dict` built from a `(key, value)` comprehension, later
occurrences of a key silently overwriting earlier ones. -/
def pyDictOfList (l : List (List Char × List Char)) :
    List (List Char × List Char) :=
  l.foldl (fun d kv => pyDictInsert d kv.1 kv.2) []

/-- The `yara_files` dict of `compile_yara_rules_from_directory`: from the
`os.walk` entries (each a `(root, filename)` pair, in walk order) of the
rules directory, keep the files ending in `".yar"` and map
`basename.replace(".yar", "")` to the joined path.  The compiled rules are
produced by the external `yara.compile(filepaths=yara_files)`, which is not
consulted about duplicate basenames: the dict has already resolved them. -/
def yaraFilesDict (walkEntries : List (List Char × List Char)) :
    List (List Char × List Char) :=
  pyDictOfList
    ((walkEntries.filter (fun e => endsWithYar e.2)).map
      (fun e => (stripYar e.2, pathJoin e.1 e.2)))

/-- Observation of a Python `dict`: the value stored under a key (the value
of the first — and, for a dict, only — entry with that key). -/
def pyLookup (k : List Char) : List (List Char × List Char) → Option (List Char)
  | [] => none
  | kv :: rest => if kv.1 = k then some kv.2 else pyLookup k rest

/-- The value of the last entry of an association list carrying a given key,
if any: the value a Python dict comprehension retains for that key. -/
def lastValue (k : List Char) : List (List Char × List Char) → Option (List Char)
  | [] => none
  | kv :: rest =>
    match lastValue k rest with
    | some v => some v
    | none => if kv.1 = k then some kv.2 else none

deriving instance DecidableEq for Except

/-- `os.path.basename(p)`: the segment after the last separator. -/
def basename (p : List Char) : List Char :=
  (splitOnSep p).getLastD []

/-- The exceptions observable in the pipeline.  `yaraError` is `yara.Error`
(the only class `scan_file_async` catches); `configurationError` is a
`yara.compile` failure; `osError` stands for filesystem/subprocess errors
such as those `shutil.move`, `os.makedirs` or subprocess creation can raise;
`otherError` is any further exception class. -/
inductive Exc where
  | yaraError
  | configurationError
  | osError
  | otherError
deriving DecidableEq

/-- One `{offset, identifier, data}` entry of a match, `data` already
hex-encoded, as `scan_file` builds it. -/
structure MatchInstance where
  offset : Nat
  identifier : List Char
  data : List Char
deriving DecidableEq

/-- One detailed match dict as `scan_file` returns it. -/
structure MatchDetail where
  rule : List Char
  tags : List (List Char)
  nspace : List Char
  meta : List (List Char × List Char)
  matchStrings : List MatchInstance
deriving DecidableEq

/-- One flattened result row built in `scan_and_extract_async`'s loop. -/
structure ResultRecord where
  file_path : List Char
  sub_file_basename : List Char
  number_of_files : Nat
  detail : MatchDetail
deriving DecidableEq

/-- Filesystem-level events emitted by one `scan_and_extract_async` call. -/
inductive Ev where
  | mkdtempEv (d : List Char)
  | extractEv (src d : List Char)
  | moveEv (src dst : List Char)
  | scanEv (p : List Char)
  | rmtreeEv (d : List Char)
deriving DecidableEq

/-- The behaviour of the external collaborators during one
`scan_and_extract_async(rules, file_path)` call: whether the sample path is a
file, the `mkdtemp()` name, whether `extract_file_async` raises (a non-zero
7z exit status is logged and is *not* an exception, hence `none`), the files
`os.walk` finds under the temp directory, whether the
`clean_and_ensure_path`/`shutil.move` pair raises for a given path, and the
outcome of running `scan_file` on a given path. -/
structure ScanEnv where
  choice : Nat → Char
  isfile : Bool
  tempDir : List Char
  extractOutcome : Option Exc
  extracted : List (List Char)
  sanitizeOutcome : List Char → Option Exc
  matchOutcome : List Char → Except Exc (List MatchDetail)

/-- Embedding of `scan_file_async(rules, file_path)`: run `scan_file` in the
executor and catch exactly `yara.Error`, turning it into an empty match
list; any other exception class propagates. -/
def scan_file_async (m : Except Exc (List MatchDetail)) :
    Except Exc (List MatchDetail) :=
  match m with
  | .error .yaraError => .ok []
  | m => m

/-- The `detailed_matches`-to-records step of the loop body of
`scan_and_extract_async`: scan the (possibly relocated) path through
`scan_file_async` and turn each detailed match into one `ResultRecord`. -/
def scanRecords (env : ScanEnv) (file_path fp : List Char)
    (number_of_files : Nat) : Except Exc (List ResultRecord) :=
  match scan_file_async (env.matchOutcome fp) with
  | .error e => Except.error e
  | .ok ds =>
    Except.ok (ds.map (fun d =>
      { file_path := file_path, sub_file_basename := basename fp,
        number_of_files := number_of_files, detail := d }))

/-- One iteration of the `for full_path in files_to_scan` loop of
`scan_and_extract_async`: if the path lies under the temp directory and
fails `is_valid_path`, it is cleaned and moved first (an exception here
propagates); then the (possibly relocated) path is scanned and each detailed
match becomes one `ResultRecord`. -/
def scanOneFile (env : ScanEnv) (file_path full_path : List Char)
    (number_of_files : Nat) : Except Exc (List ResultRecord) × List Ev :=
  if env.tempDir.isPrefixOf full_path && !(is_valid_path full_path) then
    match env.sanitizeOutcome full_path with
    | some e => (Except.error e, [])
    | none =>
      let new_full_path := clean_and_ensure_path env.choice full_path
      (scanRecords env file_path new_full_path number_of_files,
       [Ev.moveEv full_path new_full_path, Ev.scanEv new_full_path])
  else (scanRecords env file_path full_path number_of_files, [Ev.scanEv full_path])

/-- The whole scanning loop of `scan_and_extract_async`, accumulating
records; an exception raised for one file aborts the remaining iterations
(there is no `except` in the source around the loop body). -/
def scanLoop (env : ScanEnv) (file_path : List Char) (number_of_files : Nat) :
    List (List Char) → List ResultRecord → List Ev →
      Except Exc (List ResultRecord) × List Ev
  | [], recs, evs => (Except.ok recs, evs)
  | fp :: rest, recs, evs =>
    match scanOneFile env file_path fp number_of_files with
    | (.error e, evs2) => (Except.error e, evs ++ evs2)
    | (.ok rs, evs2) => scanLoop env file_path number_of_files rest (recs ++ rs) (evs ++ evs2)

/-- Embedding of `scan_and_extract_async(rules, file_path)`: missing sample
paths yield no records and no workspace; otherwise a temp directory is made,
the sample extracted into it, the candidate list built as the original file
followed by every walked file, the loop run, and — via `try/finally` — the
temp directory removed unconditionally, the body's exception (if any) being
re-raised afterwards.  Returns the outcome together with the event trace. -/
def scan_and_extract_async (env : ScanEnv) (file_path : List Char) :
    Except Exc (List ResultRecord) × List Ev :=
  if !env.isfile then (Except.ok [], [])
  else
    let body : Except Exc (List ResultRecord) × List Ev :=
      match env.extractOutcome with
      | some e => (Except.error e, [Ev.extractEv file_path env.tempDir])
      | none =>
        let files_to_scan := file_path :: env.extracted
        let number_of_files := files_to_scan.length
        let r := scanLoop env file_path number_of_files files_to_scan [] []
        (r.1, Ev.extractEv file_path env.tempDir :: r.2)
    (body.1, Ev.mkdtempEv env.tempDir :: body.2 ++ [Ev.rmtreeEv env.tempDir])

/-- The contribution of one candidate file to a sample's result list when no
uncaught exception interferes: the records its (possibly relocated) path
produces, or nothing when its scan raised a caught `yara.Error`. -/
def fileContribution (env : ScanEnv) (file_path : List Char)
    (number_of_files : Nat) (fp : List Char) : List ResultRecord :=
  let fp2 :=
    if env.tempDir.isPrefixOf fp && !(is_valid_path fp) then
      clean_and_ensure_path env.choice fp
    else fp
  match scan_file_async (env.matchOutcome fp2) with
  | .error _ => []
  | .ok ds =>
    ds.map (fun d =>
      { file_path := file_path, sub_file_basename := basename fp2,
        number_of_files := number_of_files, detail := d })

/-- The concatenation of the per-file contributions of a candidate list:
what a sample's scan returns when every per-file step is independent. -/
def contributionsOf (env : ScanEnv) (file_path : List Char)
    (number_of_files : Nat) : List (List Char) → List ResultRecord
  | [] => []
  | fp :: rest =>
    fileContribution env file_path number_of_files fp ++
      contributionsOf env file_path number_of_files rest

/-- Embedding of `run_yara_rules_async(yara_rules_path, files_to_scan)`:
compile the rules (a compilation failure propagates), then gather the
per-sample scans; `asyncio.gather` without `return_exceptions` re-raises any
exception a task raises, so the first failing sample's exception propagates
out of the batch. -/
def run_yara_rules_async (compileOutcome : Option Exc)
    (samples : List (ScanEnv × List Char)) : Except Exc (List ResultRecord) :=
  match compileOutcome with
  | some e => .error e
  | none =>
    samples.foldl
      (fun acc s =>
        match acc, (scan_and_extract_async s.1 s.2).1 with
        | .error e, _ => .error e
        | .ok l, .ok l2 => .ok (l ++ l2)
        | .ok _, .error e => .error e)
      (.ok [])

/-- An extraction-subprocess event of the batch's concurrency trace. -/
inductive XEv where
  | startE (i : Nat)
  | endE (i : Nat)
deriving DecidableEq

/-- The sample index an event belongs to. -/
def XEv.task : XEv → Nat
  | .startE i => i
  | .endE i => i

/-- The extraction-subprocess events sample task `i` emits, in program
order: `extract_file_async` starts the 7z subprocess, then awaits its
completion.  The admission semaphore `sem = asyncio.Semaphore(4)` declared
at module level is never acquired anywhere in the source — in particular not
by `extract_file_async` — so no acquire/release event guards the start. -/
def taskExtractionEvents (i : Nat) : List XEv :=
  [XEv.startE i, XEv.endE i]

/-- The value of the module-level admission limit, `asyncio.Semaphore(4)`. -/
def semLimit : Nat := 4

/-- A trace is a possible interleaving of a batch of `n` sample tasks when
every event belongs to some task and each task's events appear in program
order (a task may not have finished): the cooperative scheduler may switch
tasks at each `await`, and no semaphore constrains the interleaving. -/
def validBatchTrace (n : Nat) (tr : List XEv) : Bool :=
  tr.all (fun e => e.task < n) &&
  (List.range n).all (fun i =>
    ((tr.filter (fun e => e.task = i)).isPrefixOf (taskExtractionEvents i)))

/-- The number of extraction subprocesses in flight after the trace:
started and not yet completed. -/
def inFlight (tr : List XEv) : Nat :=
  (tr.filter (fun e => match e with | .startE _ => true | .endE _ => false)).length -
  (tr.filter (fun e => match e with | .startE _ => false | .endE _ => true)).length

/-- A schedule of a five-sample batch in which every task has started its
extraction subprocess and none has completed. -/
def fiveStarts : List XEv :=
  [XEv.startE 0, XEv.startE 1, XEv.startE 2, XEv.startE 3, XEv.startE 4]

end ExtractYaraBatch

namespace ExtractYaraBatch

/-- A match detail with one string instance, used by concrete scenarios. -/
def mdemo : MatchDetail :=
  { rule := "r1".toList, tags := [], nspace := "default".toList, meta := [],
    matchStrings := [{ offset := 10, identifier := "$a".toList, data := "abcd".toList }] }

/-- The original sample path of the concrete scenarios. -/
def s1Path : List Char := "/samples/s1".toList

/-- A scan in which the original file matches one rule, extraction succeeds,
the single extracted member has a null byte in its name (so it needs
sanitization), and the sanitize-and-move step for it raises an `OSError`. -/
def moveFailEnv : ScanEnv :=
  { choice := fun _ => 'a'
    isfile := true
    tempDir := "/tmp/t".toList
    extractOutcome := none
    extracted := ["/tmp/t/".toList ++ [Char.ofNat 0]]
    sanitizeOutcome := fun _ => some Exc.osError
    matchOutcome := fun p => if p = s1Path then .ok [mdemo] else .ok [] }

/-- A fully successful scan: the original file matches one rule, extraction
succeeds, the single extracted member has a safe name and matches nothing,
and no step raises. -/
def okEnv : ScanEnv :=
  { choice := fun _ => 'a'
    isfile := true
    tempDir := "/tmp/t".toList
    extractOutcome := none
    extracted := ["/tmp/t/m1".toList]
    sanitizeOutcome := fun _ => none
    matchOutcome := fun p => if p = s1Path then .ok [mdemo] else .ok [] }

/-- The single record the `okEnv` scenario produces. -/
def okRec : ResultRecord :=
  { file_path := s1Path, sub_file_basename := "s1".toList,
    number_of_files := 2, detail := mdemo }

/-- The `os.walk(ws, topdown=False)` listing of a directory `ws` containing
one empty subdirectory `d`, and the corresponding set of existing paths
(no entry named `d` exists next to `ws`). -/
def wsWalk : List (FPath × List (List Char) × List (List Char)) :=
  [([ "ws".toList, "d".toList ], [], []), ([ "ws".toList ], ["d".toList], [])]

/-- The paths existing before `sanitize_directory` runs on `wsWalk`'s tree. -/
def wsState : List FPath := [[ "ws".toList ], [ "ws".toList, "d".toList ]]

/-- The two-file rules-directory walk listing in which both rule files have
basename `x.yar`. -/
def dupRulesWalk : List (List Char × List Char) :=
  [("d1".toList, "x.yar".toList), ("d2".toList, "x.yar".toList)]

end ExtractYaraBatch

namespace ExtractYaraBatch

theorem isValidChar_of_letterOrDigit {c : Char}
    (h : (isAsciiLetter c || isAsciiDigit c) = true) : isValidChar c = true := by
  rcases Bool.or_eq_true_iff.mp h with h1 | h1 <;> simp [isValidChar, h1]

theorem psep_not_valid : isValidChar psep = false := by decide

theorem ne_psep_of_valid {c : Char} (h : isValidChar c = true) : c ≠ psep := by
  intro he
  rw [he, psep_not_valid] at h
  cases h

theorem mem_clean_string_dir {choice : Nat → Char} {s : List Char} {c : Char}
    (h : c ∈ clean_string choice s false) : isValidChar c = true := by
  simp only [clean_string, if_neg (by simp : ¬ (false = true))] at h
  exact (List.mem_filter.mp h).2

theorem clean_string_dir_of_valid {choice : Nat → Char} {s : List Char}
    (h : ∀ c ∈ s, isValidChar c = true) : clean_string choice s false = s := by
  simp only [clean_string, if_neg (by simp : ¬ (false = true))]
  exact List.filter_eq_self.mpr h

theorem mem_cleanFilenameAux {choice : Nat → Char}
    (hch : ∀ n, (isAsciiLetter (choice n) || isAsciiDigit (choice n)) = true) :
    ∀ (s : List Char) (k : Nat) (c : Char),
      c ∈ cleanFilenameAux choice k s → isValidChar c = true := by
  intro s
  induction s with
  | nil => intro k c hc; cases hc
  | cons a as ih =>
    intro k c hc
    simp only [cleanFilenameAux] at hc
    rcases List.mem_cons.mp hc with hc | hc
    · by_cases ha : isValidChar a = true
      · rw [if_pos ha] at hc
        rw [hc]; exact ha
      · rw [if_neg ha] at hc
        rw [hc]; exact isValidChar_of_letterOrDigit (hch k)
    · exact ih (k + 1) c hc

theorem cleanFilenameAux_of_valid {choice : Nat → Char} :
    ∀ (s : List Char) (k : Nat), (∀ c ∈ s, isValidChar c = true) →
      cleanFilenameAux choice k s = s := by
  intro s
  induction s with
  | nil => intro k _; rfl
  | cons a as ih =>
    intro k h
    simp only [cleanFilenameAux]
    rw [if_pos (h a (List.mem_cons_self a as)),
      ih (k + 1) (fun c hc => h c (List.mem_cons_of_mem a hc))]

theorem clean_string_filename_of_valid {choice : Nat → Char} {s : List Char}
    (h : ∀ c ∈ s, isValidChar c = true) : clean_string choice s true = s := by
  simp only [clean_string, if_pos rfl]
  exact cleanFilenameAux_of_valid s 0 h

theorem splitOnSep_ne_nil (l : List Char) : splitOnSep l ≠ [] := by
  cases l with
  | nil => simp [splitOnSep]
  | cons c cs =>
    simp only [splitOnSep]
    split <;> simp

theorem splitOnSep_append_of_noSep :
    ∀ (x : List Char), (∀ c ∈ x, c ≠ psep) → ∀ (t : List Char),
      splitOnSep (x ++ t) = (x ++ (splitOnSep t).headD []) :: (splitOnSep t).tail := by
  intro x
  induction x with
  | nil =>
    intro _ t
    cases h : splitOnSep t with
    | nil => exact absurd h (splitOnSep_ne_nil t)
    | cons a as => simp [h]
  | cons c x ih =>
    intro hx t
    have hc : c ≠ psep := hx c (List.mem_cons_self c x)
    rw [List.cons_append, splitOnSep]
    simp only [if_neg hc]
    rw [ih (fun a ha => hx a (List.mem_cons_of_mem c ha)) t]
    simp

theorem splitOnSep_of_noSep (x : List Char) (hx : ∀ c ∈ x, c ≠ psep) :
    splitOnSep x = [x] := by
  have h := splitOnSep_append_of_noSep x hx []
  simpa [splitOnSep] using h

theorem joinSep_cons_cons (x y : List Char) (ys : List (List Char)) :
    joinSep (x :: y :: ys) = x ++ psep :: joinSep (y :: ys) := rfl

theorem splitOnSep_joinSep :
    ∀ (xs : List (List Char)), xs ≠ [] → (∀ x ∈ xs, ∀ c ∈ x, c ≠ psep) →
      splitOnSep (joinSep xs) = xs := by
  intro xs
  induction xs with
  | nil => intro h; exact absurd rfl h
  | cons x xs ih =>
    intro _ hx
    cases xs with
    | nil => simpa [joinSep] using splitOnSep_of_noSep x (hx x (by simp))
    | cons y ys =>
      have h1 := splitOnSep_append_of_noSep x (hx x (by simp))
        (psep :: joinSep (y :: ys))
      have h2 : splitOnSep (psep :: joinSep (y :: ys))
          = [] :: splitOnSep (joinSep (y :: ys)) := by
        rw [splitOnSep]; simp
      have h3 : splitOnSep (joinSep (y :: ys)) = y :: ys :=
        ih (by simp) (fun a ha => hx a (List.mem_cons_of_mem x ha))
      rw [joinSep_cons_cons, h1, h2, h3]
      simp

theorem clean_and_ensure_path_parts (choice : Nat → Char) (P : List Char) :
    clean_and_ensure_path choice P
      = joinSep (cleanedDirParts choice P ++ [cleanedFileName choice P]) := rfl

theorem map_clean_id {choice : Nat → Char} {l : List (List Char)}
    (h : ∀ q ∈ l, clean_string choice q false = q) :
    l.map (fun part => clean_string choice part false) = l := by
  induction l with
  | nil => rfl
  | cons a as ih =>
    rw [List.map_cons, h a (List.mem_cons_self a as),
      ih (fun q hq => h q (List.mem_cons_of_mem a hq))]

theorem cleanedDirParts_valid (choice : Nat → Char) (P : List Char) :
    ∀ q ∈ cleanedDirParts choice P, ∀ c ∈ q, isValidChar c = true := by
  intro q hq c hc
  rcases List.mem_map.mp hq with ⟨part, _, hpq⟩
  rw [← hpq] at hc
  exact mem_clean_string_dir hc

theorem cleanedFileName_valid (choice : Nat → Char) (P : List Char)
    (hch : ∀ n, (isAsciiLetter (choice n) || isAsciiDigit (choice n)) = true) :
    ∀ c ∈ cleanedFileName choice P, isValidChar c = true := by
  intro c hc
  simp only [cleanedFileName, clean_string, if_pos rfl] at hc
  exact mem_cleanFilenameAux hch _ 0 c hc

theorem cleanedDirParts_ne_nil (choice : Nat → Char) (P : List Char)
    (hP : ∀ part ∈ (splitOnSep P).dropLast, part ≠ [] →
      clean_string choice part false ≠ []) :
    ∀ q ∈ cleanedDirParts choice P, q ≠ [] := by
  intro q hq
  rcases List.mem_map.mp hq with ⟨part, hpart, hpq⟩
  have h1 := List.mem_filter.mp hpart
  rw [← hpq]
  exact hP part h1.1 (by simpa using h1.2)

/-- Re-applying the transformation of `clean_and_ensure_path` to a rejoined
path all of whose components are already clean (every character allowed, no
empty directory component) returns it unchanged. -/
theorem clean_and_ensure_path_of_clean (choice : Nat → Char)
    (cps : List (List Char)) (cf : List Char)
    (hvalid_cps : ∀ q ∈ cps, ∀ c ∈ q, isValidChar c = true)
    (hvalid_cf : ∀ c ∈ cf, isValidChar c = true)
    (hne : ∀ q ∈ cps, q ≠ []) :
    clean_and_ensure_path choice (joinSep (cps ++ [cf]))
      = joinSep (cps ++ [cf]) := by
  have hnos : ∀ x ∈ cps ++ [cf], ∀ c ∈ x, c ≠ psep := by
    intro x hx c hc
    rcases List.mem_append.mp hx with hx | hx
    · exact ne_psep_of_valid (hvalid_cps x hx c hc)
    · rw [List.mem_singleton.mp hx] at hc
      exact ne_psep_of_valid (hvalid_cf c hc)
  have hsplit : splitOnSep (joinSep (cps ++ [cf])) = cps ++ [cf] :=
    splitOnSep_joinSep _ (by simp) hnos
  rw [clean_and_ensure_path_parts]
  have hdrop : (cps ++ [cf]).dropLast = cps := List.dropLast_concat
  have hlast : (cps ++ [cf]).getLastD [] = cf := by
    rw [List.getLastD_eq_getLast?, List.getLast?_concat]
    rfl
  have hfilter : cps.filter (fun part => part ≠ []) = cps :=
    List.filter_eq_self.mpr (fun q hq => by simpa using hne q hq)
  have hmap : cps.map (fun part => clean_string choice part false) = cps :=
    map_clean_id
      (fun q hq => @clean_string_dir_of_valid choice q (hvalid_cps q hq))
  rw [cleanedDirParts, cleanedFileName, hsplit, hdrop, hlast, hfilter, hmap,
    clean_string_filename_of_valid hvalid_cf]

theorem head?_append_of_ne_nil (p w : List Char) (h : p ≠ []) :
    (p ++ w).head? = p.head? := by
  cases p with
  | nil => exact absurd rfl h
  | cons c cs => rfl

theorem joinSep_concat_head_valid (cps : List (List Char)) (cf : List Char)
    (hvalid_cps : ∀ q ∈ cps, ∀ c ∈ q, isValidChar c = true)
    (hvalid_cf : ∀ c ∈ cf, isValidChar c = true)
    (hne : ∀ q ∈ cps, q ≠ []) :
    (joinSep (cps ++ [cf])).head? ≠ some psep := by
  intro h
  cases cps with
  | nil =>
    have hj : joinSep ([] ++ [cf]) = cf := rfl
    rw [hj] at h
    cases cf with
    | nil => cases h
    | cons c cs =>
      have : c = psep := by simpa using h
      exact ne_psep_of_valid (hvalid_cf c (List.mem_cons_self c cs)) this
  | cons p rest =>
    have hp : p ≠ [] := hne p (List.mem_cons_self p rest)
    have hj : joinSep ((p :: rest) ++ [cf])
        = p ++ psep :: joinSep (rest ++ [cf]) := by
      cases rest <;> rfl
    rw [hj, head?_append_of_ne_nil p _ hp] at h
    cases p with
    | nil => exact absurd rfl hp
    | cons c cs =>
      have : c = psep := by simpa using h
      exact ne_psep_of_valid
        (hvalid_cps (c :: cs) (List.mem_cons_self _ rest) c
          (List.mem_cons_self c cs)) this

/-- C1: the claim states that at no point during a run are more extraction
subprocess calls in flight than the admission limit of 4.  The admission
semaphore `sem = asyncio.Semaphore(4)` is declared (line 25) but never
acquired anywhere in the source, so nothing gates `extract_file_async`: a
batch of five samples admits a schedule in which all five subprocesses are
in flight simultaneously, exceeding the limit. -/
theorem claim_C1_five_extractions_in_flight :
    validBatchTrace 5 fiveStarts = true ∧ inFlight fiveStarts = 5 ∧
      semLimit < inFlight fiveStarts := by
  decide

/-- C2, counterexample: an exception raised during sanitization-and-move of
one candidate file is not caught anywhere — the sample's scan aborts with
that exception, the record its original file had already produced is lost,
and the exception (an `OSError`, not a rule-compilation error) propagates
out of the batch through `asyncio.gather`. -/
theorem claim_C2_counterexample_move_exception_aborts_sample :
    (scan_and_extract_async moveFailEnv s1Path).1 = Except.error Exc.osError ∧
      moveFailEnv.matchOutcome s1Path = Except.ok [mdemo] ∧
      run_yara_rules_async none [(moveFailEnv, s1Path)] = Except.error Exc.osError ∧
      Exc.osError ≠ Exc.configurationError := by
  refine ⟨by decide, by decide, by decide, by decide⟩

/-- C3, counterexample: the pure path transformation of
`clean_and_ensure_path` is not idempotent.  In `a/!/b` the directory
component `!` is kept by the `if part` filter (it is non-empty) but cleaned
to the empty string, giving `a//b`; a second application drops the now-empty
component and returns `a/b`. -/
theorem claim_C3_counterexample_not_idempotent :
    clean_and_ensure_path (fun _ => 'a')
        (clean_and_ensure_path (fun _ => 'a') "a/!/b".toList)
      ≠ clean_and_ensure_path (fun _ => 'a') "a/!/b".toList := by
  decide

/-- C4, counterexample: two rule files with the same basename do not make
compilation fail — the `yara_files` dict comprehension silently keeps only
the later-walked file (`d2/x.yar`) and the earlier colliding file is absent
from the compiled set. -/
theorem claim_C4_counterexample_duplicate_basenames_silently_kept :
    yaraFilesDict dupRulesWalk = [("x".toList, "d2/x.yar".toList)] ∧
      pathJoin "d1".toList "x.yar".toList ∉ (yaraFilesDict dupRulesWalk).map Prod.snd := by
  decide

/-- C5: the claim states that `sanitize_directory` renames entries within
their containing directory and only when the name is not already
acceptable.  For directory entries the source computes the destination as
`os.path.join(os.path.dirname(root), sanitized_name)` — the *parent* of the
containing directory: on a tree `ws/d` the single rename performed moves
`ws/d` to `d`, outside `ws`, even though the name `d` needed no
sanitization. -/
theorem claim_C5_directory_renamed_into_parent :
    (sanitize_directory wsWalk wsState).2
        = [([ "ws".toList, "d".toList ], [ "d".toList ])] ∧
      sanitize_name "d".toList = "d".toList ∧
      ([ "d".toList ] : FPath).dropLast ≠ ([ "ws".toList, "d".toList ] : FPath).dropLast := by
  decide

/-- C6, counterexample: `is_valid_path` accepts a path containing a tab
character, because Python's `string.printable` includes the five white-space
control characters; the claim states it returns false for every path
containing a control character such as a tab or newline. -/
theorem claim_C6_counterexample_tab_accepted :
    is_valid_path ['a', '\t', 'b'] = true ∧ is_valid_path ['\n'] = true := by
  decide

/-- C3 (amended): the pure path transformation of `clean_and_ensure_path` is
idempotent provided every non-empty directory component of the path contains
at least one allow-listed character (so no directory component is cleaned to
the empty string); the random draws are ASCII letters or digits.  In
particular re-applying it to an already-clean path is the identity. -/
theorem claim_C3_clean_path_idempotent (choice : Nat → Char) (P : List Char)
    (hch : ∀ n, (isAsciiLetter (choice n) || isAsciiDigit (choice n)) = true)
    (hP : ∀ part ∈ (splitOnSep P).dropLast, part ≠ [] →
      clean_string choice part false ≠ []) :
    clean_and_ensure_path choice (clean_and_ensure_path choice P)
      = clean_and_ensure_path choice P := by
  rw [clean_and_ensure_path_parts choice P]
  exact clean_and_ensure_path_of_clean choice _ _
    (cleanedDirParts_valid choice P)
    (cleanedFileName_valid choice P hch)
    (cleanedDirParts_ne_nil choice P hP)

/-- Witness for C3 (amended): a concrete path with an unsafe directory name
and an unsafe filename on which the transformation is idempotent. -/
theorem claim_C3_clean_path_idempotent_witness :
    clean_and_ensure_path (fun _ => 'Z')
        (clean_and_ensure_path (fun _ => 'Z') "di r!/f*.txt".toList)
      = clean_and_ensure_path (fun _ => 'Z') "di r!/f*.txt".toList :=
  claim_C3_clean_path_idempotent (fun _ => 'Z') "di r!/f*.txt".toList
    (fun _ => show (isAsciiLetter 'Z' || isAsciiDigit 'Z') = true by decide)
    (by decide)

/-- C10, counterexample: for the absolute path `/!/b` the transformation
returns `/b`, which still begins with the separator: the leading empty
split component is dropped, but the component `!` is cleaned *after* the
`if part` filter and becomes a new empty leading component. -/
theorem claim_C10_counterexample_absolute_path_kept_absolute :
    ("/!/b".toList).head? = some psep ∧
      (clean_and_ensure_path (fun _ => 'a') "/!/b".toList).head? = some psep := by
  decide

/-- C10 (amended): empty split components (the leading one of an absolute
path included) are dropped from the directory part, and the transformed path
never begins with the separator, provided no non-empty directory component
is cleaned to the empty string; a component consisting entirely of
disallowed characters is cleaned to a new empty leading component, which
re-introduces a leading separator. -/
theorem claim_C10_cleaned_path_not_absolute (choice : Nat → Char) (P : List Char)
    (hch : ∀ n, (isAsciiLetter (choice n) || isAsciiDigit (choice n)) = true)
    (hP : ∀ part ∈ (splitOnSep P).dropLast, part ≠ [] →
      clean_string choice part false ≠ []) :
    (clean_and_ensure_path choice P).head? ≠ some psep := by
  rw [clean_and_ensure_path_parts choice P]
  exact joinSep_concat_head_valid _ _
    (cleanedDirParts_valid choice P)
    (cleanedFileName_valid choice P hch)
    (cleanedDirParts_ne_nil choice P hP)

/-- Witness for C10 (amended): a concrete absolute path whose transform does
not begin with the separator. -/
theorem claim_C10_cleaned_path_not_absolute_witness :
    (clean_and_ensure_path (fun _ => 'Z') "/tmp/x!/f*".toList).head? ≠ some psep :=
  claim_C10_cleaned_path_not_absolute (fun _ => 'Z') "/tmp/x!/f*".toList
    (fun _ => show (isAsciiLetter 'Z' || isAsciiDigit 'Z') = true by decide)
    (by decide)

theorem cleanFilenameAux_length (choice : Nat → Char) :
    ∀ (s : List Char) (k : Nat), (cleanFilenameAux choice k s).length = s.length := by
  intro s
  induction s with
  | nil => intro k; rfl
  | cons a as ih => intro k; simp [cleanFilenameAux, ih]

theorem cleanFilenameAux_getElem? (choice : Nat → Char) :
    ∀ (s : List Char) (k i : Nat),
      (cleanFilenameAux choice k s)[i]?
        = (s[i]?).map (fun c => if isValidChar c then c else choice (k + i)) := by
  intro s
  induction s with
  | nil => intro k i; simp [cleanFilenameAux]
  | cons a as ih =>
    intro k i
    cases i with
    | zero => simp [cleanFilenameAux]
    | succ j =>
      simp only [cleanFilenameAux, List.getElem?_cons_succ, ih (k + 1) j]
      have h : k + 1 + j = k + (j + 1) := by omega
      rw [h]

/-- C9: `clean_string` with `is_filename=True` substitutes exactly one drawn
letter-or-digit for each character outside the allow-list and keeps allowed
characters: the output has the input's length (so a non-empty filename never
becomes empty), position by position it is the original character when
allowed and the drawn letter-or-digit otherwise, and no character is
dropped. -/
theorem claim_C9_filename_cleaning (choice : Nat → Char) (s : List Char)
    (hs : s ≠ [])
    (hch : ∀ n, (isAsciiLetter (choice n) || isAsciiDigit (choice n)) = true) :
    (clean_string choice s true).length = s.length ∧
    clean_string choice s true ≠ [] ∧
    (∀ i, (clean_string choice s true)[i]?
        = (s[i]?).map (fun c => if isValidChar c then c else choice i)) ∧
    (∀ i c, s[i]? = some c → isValidChar c = false →
        (clean_string choice s true)[i]? = some (choice i) ∧
        (isAsciiLetter (choice i) || isAsciiDigit (choice i)) = true) := by
  have hlen : (clean_string choice s true).length = s.length := by
    simp only [clean_string, if_pos rfl]
    exact cleanFilenameAux_length choice s 0
  have hget : ∀ i, (clean_string choice s true)[i]?
      = (s[i]?).map (fun c => if isValidChar c then c else choice i) := by
    intro i
    simp only [clean_string, if_pos rfl]
    simpa using cleanFilenameAux_getElem? choice s 0 i
  refine ⟨hlen, ?_, hget, ?_⟩
  · intro h
    have h0 : s.length = 0 := by rw [← hlen, h]; rfl
    exact hs (List.eq_nil_of_length_eq_zero h0)
  · intro i c h1 h2
    refine ⟨?_, hch i⟩
    rw [hget i, h1]
    simp [h2]

/-- Witness for C9 at the concrete filename `a!b` with a constant oracle. -/
theorem claim_C9_filename_cleaning_witness :
    (clean_string (fun _ => 'Z') "a!b".toList true).length = "a!b".toList.length ∧
    clean_string (fun _ => 'Z') "a!b".toList true ≠ [] ∧
    (∀ i : Nat, (clean_string (fun _ => 'Z') "a!b".toList true)[i]?
        = ("a!b".toList[i]?).map (fun c => if isValidChar c then c else 'Z')) ∧
    (∀ (i : Nat) (c : Char), "a!b".toList[i]? = some c → isValidChar c = false →
        (clean_string (fun _ => 'Z') "a!b".toList true)[i]? = some 'Z' ∧
        (isAsciiLetter 'Z' || isAsciiDigit 'Z') = true) :=
  claim_C9_filename_cleaning (fun _ => 'Z') "a!b".toList (by decide)
    (fun _ => show (isAsciiLetter 'Z' || isAsciiDigit 'Z') = true by decide)

theorem pyPrintable_bounds : ∀ c ∈ pyPrintableChars, 9 ≤ c.toNat ∧ c.toNat ≤ 126 := by
  decide

/-- C6 (amended): `is_valid_path` returns true iff every character of the
path lies in Python's `string.printable` set — the ASCII characters 0x20 to
0x7e together with tab, newline, carriage return, vertical tab and form
feed.  It therefore rejects every path containing a null byte or a
non-ASCII character, but accepts tab and newline. -/
theorem claim_C6_printable_membership (p : List Char) :
    (is_valid_path p = true ↔ ∀ c ∈ p, c ∈ pyPrintableChars) ∧
    ((∃ c ∈ p, c.toNat = 0 ∨ 127 ≤ c.toNat) → is_valid_path p = false) ∧
    ('\t' ∈ pyPrintableChars ∧ '\n' ∈ pyPrintableChars ∧
      '\x00' ∉ pyPrintableChars) := by
  have hiff : is_valid_path p = true ↔ ∀ c ∈ p, c ∈ pyPrintableChars := by
    simp [is_valid_path, List.all_eq_true, List.elem_iff]
  refine ⟨hiff, ?_, by decide⟩
  rintro ⟨c, hc, hbad⟩
  cases hv : is_valid_path p with
  | false => rfl
  | true =>
    exfalso
    have hmem := hiff.mp hv c hc
    have hb := pyPrintable_bounds c hmem
    rcases hbad with h | h <;> omega

/-- Witness for C6 (amended): a path containing a null byte is rejected. -/
theorem claim_C6_printable_membership_witness :
    is_valid_path ['\x00'] = false :=
  (claim_C6_printable_membership ['\x00']).2.1
    ⟨'\x00', by decide, Or.inl (by decide)⟩

theorem pyLookup_pyDictInsert (d : List (List Char × List Char))
    (k v k' : List Char) :
    pyLookup k' (pyDictInsert d k v) = if k = k' then some v else pyLookup k' d := by
  induction d with
  | nil => simp [pyDictInsert, pyLookup]
  | cons kv rest ih =>
    simp only [pyDictInsert]
    by_cases hk : kv.1 = k
    · rw [if_pos hk]
      simp only [pyLookup]
      by_cases hkk : k = k'
      · rw [if_pos hkk, if_pos hkk]
      · rw [if_neg hkk, if_neg hkk,
          if_neg (show ¬ kv.1 = k' from fun h => hkk (hk.symm.trans h))]
    · rw [if_neg hk]
      simp only [pyLookup]
      by_cases hkv : kv.1 = k'
      · have hkk : ¬ k = k' := fun h => hk (by rw [hkv, h])
        rw [if_pos hkv, if_neg hkk, if_pos hkv]
      · rw [if_neg hkv, ih, if_neg hkv]

theorem pyLookup_pyDictOfList_aux :
    ∀ (l : List (List Char × List Char)) (d : List (List Char × List Char))
      (k : List Char),
      pyLookup k (l.foldl (fun d kv => pyDictInsert d kv.1 kv.2) d)
        = match lastValue k l with
          | some v => some v
          | none => pyLookup k d := by
  intro l
  induction l with
  | nil => intro d k; rfl
  | cons kv rest ih =>
    intro d k
    simp only [List.foldl_cons]
    rw [ih (pyDictInsert d kv.1 kv.2) k]
    simp only [lastValue]
    cases h : lastValue k rest with
    | some v => rfl
    | none =>
      rw [pyLookup_pyDictInsert]
      by_cases hk : kv.1 = k
      · simp [hk]
      · simp [hk]

/-- C4 (amended): duplicate rule basenames are not detected and do not abort
the batch — building the `yara_files` dict always succeeds, and for every
basename key the dict maps it to the *last* rule file the walk encountered
with that stripped basename, silently dropping every earlier colliding
file; only a `yara.compile` failure on the resulting dict is fatal. -/
theorem claim_C4_last_file_wins (es : List (List Char × List Char))
    (k : List Char) :
    pyLookup k (yaraFilesDict es)
      = lastValue k ((es.filter (fun e => endsWithYar e.2)).map
          (fun e => (stripYar e.2, pathJoin e.1 e.2))) := by
  unfold yaraFilesDict pyDictOfList
  rw [pyLookup_pyDictOfList_aux]
  cases h : lastValue k ((es.filter (fun e => endsWithYar e.2)).map
      (fun e => (stripYar e.2, pathJoin e.1 e.2))) with
  | some v => rfl
  | none => rfl

theorem scanRecords_number (env : ScanEnv) (p fp : List Char) (n : Nat)
    (rs : List ResultRecord) (h : scanRecords env p fp n = Except.ok rs) :
    ∀ r ∈ rs, r.number_of_files = n := by
  intro r hr
  unfold scanRecords at h
  cases hm : scan_file_async (env.matchOutcome fp) with
  | error e => rw [hm] at h; cases h
  | ok ds =>
    rw [hm] at h
    injection h with h
    rw [← h] at hr
    rcases List.mem_map.mp hr with ⟨d, _, hd⟩
    rw [← hd]

theorem scanOneFile_number (env : ScanEnv) (p fp : List Char) (n : Nat)
    (rs : List ResultRecord) (evs : List Ev)
    (h : scanOneFile env p fp n = (Except.ok rs, evs)) :
    ∀ r ∈ rs, r.number_of_files = n := by
  unfold scanOneFile at h
  split at h
  · split at h
    · simp at h
    · exact scanRecords_number env p (clean_and_ensure_path env.choice fp) n rs
        (congrArg Prod.fst h)
  · exact scanRecords_number env p fp n rs (congrArg Prod.fst h)

theorem scanLoop_number (env : ScanEnv) (p : List Char) (n : Nat) :
    ∀ (files : List (List Char)) (recs0 : List ResultRecord) (evs : List Ev)
      (recs : List ResultRecord),
      (∀ r ∈ recs0, r.number_of_files = n) →
      (scanLoop env p n files recs0 evs).1 = Except.ok recs →
      ∀ r ∈ recs, r.number_of_files = n := by
  intro files
  induction files with
  | nil =>
    intro recs0 evs recs h0 h
    simp only [scanLoop] at h
    injection h with h
    rw [← h]
    exact h0
  | cons fp rest ih =>
    intro recs0 evs recs h0 h
    simp only [scanLoop] at h
    split at h
    · cases h
    · next rs evs2 heq =>
      exact ih (recs0 ++ rs) _ recs
        (fun r hr => (List.mem_append.mp hr).elim (h0 r)
          (scanOneFile_number env p fp n rs evs2 heq r))
        h

/-- C7: every `ResultRecord` a sample's scan returns carries
`number_of_files` equal to the length of the discovered candidate list —
the original sample file plus every file walked under the sample's
workspace after extraction — regardless of which candidates matched. -/
theorem claim_C7_number_of_files (env : ScanEnv) (p : List Char)
    (recs : List ResultRecord) (rec : ResultRecord)
    (h1 : (scan_and_extract_async env p).1 = Except.ok recs)
    (h2 : rec ∈ recs) :
    rec.number_of_files = (p :: env.extracted).length := by
  unfold scan_and_extract_async at h1
  split at h1
  · injection h1 with h1
    rw [← h1] at h2
    cases h2
  · split at h1
    · cases h1
    · exact scanLoop_number env p (p :: env.extracted).length
        (p :: env.extracted) [] _ recs (by intro r hr; cases hr) h1 rec h2

/-- Witness for C7: the `okEnv` scenario returns exactly one record, whose
`number_of_files` is 2 (the original file plus one extracted member). -/
theorem claim_C7_number_of_files_witness :
    okRec.number_of_files = (s1Path :: okEnv.extracted).length :=
  claim_C7_number_of_files okEnv s1Path [okRec] okRec (by decide) (by decide)

theorem getLast?_cons_concat (x a : Ev) (l : List Ev) :
    (x :: (l ++ [a])).getLast? = some a := by
  rw [← List.cons_append, List.getLast?_concat]

/-- C8: for every sample whose path exists, the invocation that created the
workspace removes it unconditionally when it completes: the event trace of
`scan_and_extract_async` always ends with `shutil.rmtree(temp_dir)` — on
the success path and equally when extraction, sanitization-and-move or
scanning raised, since the removal sits in a `finally` block. -/
theorem claim_C8_workspace_removed (env : ScanEnv) (p : List Char)
    (h : env.isfile = true) :
    (scan_and_extract_async env p).2.getLast? = some (Ev.rmtreeEv env.tempDir) ∧
      Ev.rmtreeEv env.tempDir ∈ (scan_and_extract_async env p).2 := by
  unfold scan_and_extract_async
  rw [h]
  simp only [Bool.not_true, Bool.false_eq_true, if_false]
  constructor
  · exact getLast?_cons_concat _ _ _
  · simp

/-- Witness for C8 on a failing scan: in the `moveFailEnv` scenario the
sanitize-and-move step raises, yet the trace still ends with the removal of
the workspace. -/
theorem claim_C8_workspace_removed_witness :
    (scan_and_extract_async moveFailEnv s1Path).2.getLast?
        = some (Ev.rmtreeEv moveFailEnv.tempDir) ∧
      Ev.rmtreeEv moveFailEnv.tempDir ∈ (scan_and_extract_async moveFailEnv s1Path).2 :=
  claim_C8_workspace_removed moveFailEnv s1Path rfl

theorem scanRecords_ok_eq (env : ScanEnv) (p fp : List Char) (n : Nat)
    (h3 : ∀ e, env.matchOutcome fp = Except.error e → e = Exc.yaraError) :
    scanRecords env p fp n
      = Except.ok (match scan_file_async (env.matchOutcome fp) with
          | .error _ => []
          | .ok ds => ds.map (fun d =>
              { file_path := p, sub_file_basename := basename fp,
                number_of_files := n, detail := d })) := by
  unfold scanRecords
  cases hm : env.matchOutcome fp with
  | ok ds => rfl
  | error e =>
    have he : e = Exc.yaraError := h3 e hm
    subst he
    rfl

theorem scanOneFile_contribution (env : ScanEnv) (p fp : List Char) (n : Nat)
    (h2 : env.sanitizeOutcome fp = none)
    (h3 : ∀ q e, env.matchOutcome q = Except.error e → e = Exc.yaraError) :
    (scanOneFile env p fp n).1 = Except.ok (fileContribution env p n fp) := by
  unfold scanOneFile fileContribution
  by_cases hc : (env.tempDir.isPrefixOf fp && !(is_valid_path fp)) = true
  · rw [if_pos hc, if_pos hc, h2]
    exact congrArg Prod.fst (congrArg _ rfl) |>.trans
      (scanRecords_ok_eq env p _ n (fun e he => h3 _ e he))
  · rw [if_neg hc, if_neg hc]
    exact scanRecords_ok_eq env p fp n (fun e he => h3 _ e he)

theorem scanLoop_contribution (env : ScanEnv) (p : List Char) (n : Nat)
    (h2 : ∀ q, env.sanitizeOutcome q = none)
    (h3 : ∀ q e, env.matchOutcome q = Except.error e → e = Exc.yaraError) :
    ∀ (files : List (List Char)) (recs : List ResultRecord) (evs : List Ev),
      (scanLoop env p n files recs evs).1
        = Except.ok (recs ++ contributionsOf env p n files) := by
  intro files
  induction files with
  | nil => intro recs evs; simp [scanLoop, contributionsOf]
  | cons fp rest ih =>
    intro recs evs
    have hof := scanOneFile_contribution env p fp n (h2 fp) h3
    simp only [scanLoop]
    split
    · next e evs2 heq =>
      rw [heq] at hof
      cases hof
    · next rs evs2 heq =>
      rw [heq] at hof
      injection hof with hof
      subst hof
      rw [ih]
      simp [contributionsOf, List.append_assoc]

/-- C2 (amended): within one sample's scan, only a `yara.Error` raised while
matching one candidate file is isolated — it is caught in
`scan_file_async`, contributes zero records for that file, and the other
candidate files still produce their records, the result being the
concatenation of independent per-file contributions.  An exception raised
during extraction (or, per the counterexample, during
sanitization-and-move) is not caught: the sample's scan re-raises it after
cleanup, and it propagates out of the batch. -/
theorem claim_C2_only_yara_errors_isolated (env : ScanEnv) (p : List Char)
    (h : env.isfile = true) :
    ((env.extractOutcome = none) →
      (∀ q, env.sanitizeOutcome q = none) →
      (∀ q e, env.matchOutcome q = Except.error e → e = Exc.yaraError) →
      (scan_and_extract_async env p).1
        = Except.ok (contributionsOf env p (p :: env.extracted).length
            (p :: env.extracted))) ∧
    (∀ e, env.extractOutcome = some e →
      (scan_and_extract_async env p).1 = Except.error e) := by
  constructor
  · intro h1 h2 h3
    unfold scan_and_extract_async
    rw [h, h1]
    simp only [Bool.not_true, Bool.false_eq_true, if_false]
    rw [scanLoop_contribution env p (p :: env.extracted).length h2 h3]
    simp
  · intro e he
    unfold scan_and_extract_async
    rw [h, he]
    simp

/-- Witness for C2 (amended): the `okEnv` scenario, in which no step raises,
returns exactly the concatenated per-file contributions. -/
theorem claim_C2_only_yara_errors_isolated_witness :
    (scan_and_extract_async okEnv s1Path).1
      = Except.ok (contributionsOf okEnv s1Path
          (s1Path :: okEnv.extracted).length (s1Path :: okEnv.extracted)) :=
  (claim_C2_only_yara_errors_isolated okEnv s1Path rfl).1 rfl (fun _ => rfl)
    (fun q e he => by
      simp only [okEnv] at he
      split at he <;> cases he)

end ExtractYaraBatch
